import Mathlib

/-!
Shallow embedding of the calendar-sync core (src/event.rs, src/calendar.rs,
src/coda.rs, src/csv_parser.rs, src/main.rs) and proofs about the claims
of its specification.

Dates and wall-clock times mirror chrono's `NaiveDate` / `NaiveTime` at
second precision; machine strings are Lean `String`s; fallible Rust code
returns `Option` / `Except`; the panics reachable through
`Option::unwrap` are modelled as `Option.none` results.
-/

namespace CalendarSync

/-- Calendar date, the (year, month, day) view of chrono `NaiveDate`.
The model keeps the year unbounded. -/
structure Date where
  year : Int
  month : Nat
  day : Nat
deriving DecidableEq

/-- Gregorian leap-year rule. -/
def isLeapYear (y : Int) : Bool :=
  (y % 4 == 0 && y % 100 != 0) || (y % 400 == 0)

/-- Number of days of a month (0 for an out-of-range month index). -/
def daysInMonth (y : Int) (m : Nat) : Nat :=
  match m with
  | 1 => 31
  | 2 => if isLeapYear y then 29 else 28
  | 3 => 31
  | 4 => 30
  | 5 => 31
  | 6 => 30
  | 7 => 31
  | 8 => 31
  | 9 => 30
  | 10 => 31
  | 11 => 30
  | 12 => 31
  | _ => 0

/-- A date that chrono `NaiveDate` can actually represent. -/
def Date.wf (d : Date) : Prop :=
  1 ≤ d.month ∧ d.month ≤ 12 ∧ 1 ≤ d.day ∧ d.day ≤ daysInMonth d.year d.month

instance (d : Date) : Decidable d.wf := by unfold Date.wf; infer_instance

/-- Calendar-date successor (chrono `NaiveDate::succ_opt`; total here because the
model's year is unbounded, so the `unwrap_or(end_date)` fallback of
`convert_to_google_event` is never taken). -/
def Date.succ (d : Date) : Date :=
  if d.day < daysInMonth d.year d.month then ⟨d.year, d.month, d.day + 1⟩
  else if d.month < 12 then ⟨d.year, d.month + 1, 1⟩
  else ⟨d.year + 1, 1, 1⟩

/-- Calendar-date predecessor (chrono `NaiveDate::pred_opt`). -/
def Date.pred (d : Date) : Date :=
  if 1 < d.day then ⟨d.year, d.month, d.day - 1⟩
  else if 1 < d.month then ⟨d.year, d.month - 1, daysInMonth d.year (d.month - 1)⟩
  else ⟨d.year - 1, 12, 31⟩

/-- Wall-clock time of day (chrono `NaiveTime` at second precision). -/
structure Time where
  hh : Nat
  mm : Nat
  ss : Nat
deriving DecidableEq

def Time.toSecs (t : Time) : Nat := t.hh * 3600 + t.mm * 60 + t.ss

def Time.ofSecs (n : Nat) : Time := ⟨n / 3600, n % 3600 / 60, n % 60⟩

/-- A timezone-naive date + time (chrono `NaiveDateTime`). -/
structure DateTime where
  date : Date
  time : Time
deriving DecidableEq

/-- The canonical event model: `CalendarEvent` from src/event.rs, with the
`organization` and `purchased` fields that src/coda.rs, src/csv_parser.rs and
src/main.rs read and write on it. -/
structure CalendarEvent where
  title : String
  description : Option String
  location : Option String
  organization : Option String
  purchased : Bool
  start_date : Date
  start_time : Option Time
  end_date : Date
  end_time : Option Time
deriving DecidableEq

/-- `CalendarEvent::is_all_day`: no specific times. -/
def CalendarEvent.is_all_day (e : CalendarEvent) : Bool :=
  e.start_time.isNone && e.end_time.isNone

/-- `CalendarEvent::start_datetime`: start date at start time, midnight default. -/
def CalendarEvent.start_datetime (e : CalendarEvent) : DateTime :=
  ⟨e.start_date, e.start_time.getD ⟨0, 0, 0⟩⟩

/-- `CalendarEvent::end_datetime`: end date at end time, 23:59:59 default. -/
def CalendarEvent.end_datetime (e : CalendarEvent) : DateTime :=
  ⟨e.end_date, e.end_time.getD ⟨23, 59, 59⟩⟩

/-- The all-day/timed consistency invariant of the spec: start and end times
are both present or both absent. -/
def CalendarEvent.timesConsistent (e : CalendarEvent) : Prop :=
  e.start_time.isSome = e.end_time.isSome

instance (e : CalendarEvent) : Decidable e.timesConsistent := by
  unfold CalendarEvent.timesConsistent; infer_instance

/-! ### America/Los_Angeles local-time resolution

Model of the external chrono-tz zone used by `convert_to_google_event`
(`Los_Angeles.from_local_datetime`), for the post-2007 United States rules:
daylight saving starts on the second Sunday of March (02:00 standard time
jumps to 03:00) and ends on the first Sunday of November (02:00 daylight
time falls back to 01:00).  Standard offset is UTC-8, daylight is UTC-7, so
the UTC instant of a local wall clock is local + 8 h, resp. local + 7 h. -/

/-- Days since 1970-01-01 of a proleptic Gregorian date
(Howard Hinnant's days-from-civil algorithm, truncating division). -/
def daysFromCivil (d : Date) : Int :=
  let y : Int := if d.month ≤ 2 then d.year - 1 else d.year
  let era : Int := (if 0 ≤ y then y else y - 399) / 400
  let yoe : Int := y - era * 400
  let mp : Int := (Int.ofNat d.month + 9) % 12
  let doy : Int := (153 * mp + 2) / 5 + Int.ofNat d.day - 1
  let doe : Int := yoe * 365 + yoe / 4 - yoe / 100 + doy
  era * 146097 + doe - 719468

/-- Day of week, 0 = Sunday. -/
def dayOfWeek (d : Date) : Int := (daysFromCivil d + 4) % 7

/-- Day of month of the first Sunday of the given month. -/
def firstSundayDay (y : Int) (m : Nat) : Nat :=
  let w := (dayOfWeek ⟨y, m, 1⟩).toNat
  1 + (7 - w) % 7

/-- The spring-forward transition date of the given year: second Sunday of March. -/
def laSpringForwardDate (y : Int) : Date := ⟨y, 3, firstSundayDay y 3 + 7⟩

/-- The fall-back transition date of the given year: first Sunday of November. -/
def laFallBackDate (y : Int) : Date := ⟨y, 11, firstSundayDay y 11⟩

/-- Strict order on the (month, day) part of two dates of the same year. -/
def monthDayLt (a b : Date) : Prop :=
  a.month < b.month ∨ (a.month = b.month ∧ a.day < b.day)

instance (a b : Date) : Decidable (monthDayLt a b) := by
  unfold monthDayLt; infer_instance

/-- Whether a local wall-clock datetime lies in the daylight-saving span of
America/Los_Angeles (meaningful away from the gap and the ambiguous hour). -/
def inDSTla (dt : DateTime) : Prop :=
  let d := dt.date
  let s := dt.time.toSecs
  let sf := laSpringForwardDate d.year
  let fb := laFallBackDate d.year
  (monthDayLt sf d ∨ (d = sf ∧ 7200 ≤ s)) ∧ (monthDayLt d fb ∨ (d = fb ∧ s < 7200))

instance (dt : DateTime) : Decidable (inDSTla dt) := by
  unfold inDSTla; infer_instance

/-- Add whole hours to a naive datetime, rolling the date forward when the
time passes midnight (at most one rollover for the offsets used here). -/
def addHoursRoll (dt : DateTime) (h : Nat) : DateTime :=
  if dt.time.toSecs + h * 3600 < 86400 then ⟨dt.date, Time.ofSecs (dt.time.toSecs + h * 3600)⟩
  else ⟨dt.date.succ, Time.ofSecs (dt.time.toSecs + h * 3600 - 86400)⟩

/-- chrono `LocalResult` for a local-to-zone resolution. -/
inductive LocalResult where
  | single (utc : DateTime)
  | ambiguous (earliest latest : DateTime)
  | nonexistent
deriving DecidableEq

/-- Model of `Los_Angeles.from_local_datetime`, returning the UTC instant(s)
whose Los Angeles wall clock equals the argument.  In the spring-forward gap
([02:00, 03:00) on the transition date) there is no such instant; in the
fall-back hour ([01:00, 02:00) on the transition date) there are two, the
earlier one from the daylight offset (UTC-7) and the later one from the
standard offset (UTC-8). -/
def fromLocalLosAngeles (dt : DateTime) : LocalResult :=
  if dt.date = laSpringForwardDate dt.date.year ∧ 7200 ≤ dt.time.toSecs ∧ dt.time.toSecs < 10800 then
    .nonexistent
  else if dt.date = laFallBackDate dt.date.year ∧ 3600 ≤ dt.time.toSecs ∧ dt.time.toSecs < 7200 then
    .ambiguous (addHoursRoll dt 7) (addHoursRoll dt 8)
  else if inDSTla dt then .single (addHoursRoll dt 7)
  else .single (addHoursRoll dt 8)

/-- Seconds on the UTC timeline of a (UTC) datetime, for comparing instants. -/
def DateTime.utcSecs (dt : DateTime) : Int :=
  daysFromCivil dt.date * 86400 + (dt.time.toSecs : Int)

/-! ### Projection to the Google wire shape (src/calendar.rs) -/

/-- google_calendar3 `EventDateTime`: either a bare date (all-day) or a UTC
instant with a zone identifier. -/
structure EventDateTime where
  date : Option Date
  date_time : Option DateTime
  time_zone : Option String
deriving DecidableEq

/-- The subset of google_calendar3 `Event` that the program reads or writes. -/
structure GEvent where
  id : Option String
  summary : Option String
  description : Option String
  location : Option String
  start : Option EventDateTime
  endDT : Option EventDateTime
deriving DecidableEq

/-- The resolution step of `convert_to_google_event`:
`.single().unwrap_or_else(|| from_local_datetime(..).latest().unwrap())`.
An ambiguous wall clock takes the `latest` candidate; a nonexistent wall
clock makes `latest()` return `None` and the `unwrap` panic, modelled as
`Option.none`. -/
def resolveLocal (dt : DateTime) : Option DateTime :=
  match fromLocalLosAngeles dt with
  | .single u => some u
  | .ambiguous _ l => some l
  | .nonexistent => Option.none

/-- `convert_to_google_event` (src/calendar.rs).  `Option.none` models the
panic on the spring-forward gap. -/
def convert_to_google_event (ev : CalendarEvent) : Option GEvent :=
  if ev.is_all_day then
    some { id := Option.none
           summary := some ev.title
           description := ev.description
           location := ev.location
           start := some ⟨some ev.start_date, Option.none, Option.none⟩
           endDT := some ⟨some ev.end_date.succ, Option.none, Option.none⟩ }
  else
    match resolveLocal ev.start_datetime, resolveLocal ev.end_datetime with
    | some su, some eu =>
        some { id := Option.none
               summary := some ev.title
               description := ev.description
               location := ev.location
               start := some ⟨Option.none, some su, some ("America/Los_Angeles")⟩
               endDT := some ⟨Option.none, some eu, some ("America/Los_Angeles")⟩ }
    | _, _ => Option.none

/-! ### Matching against fetched remote events (src/calendar.rs) -/

/-- `FoundCalendarEvent`: the remote event record kept for a match. -/
structure FoundCalendarEvent where
  id : String
  title : String
  date : Date
  location : Option String
deriving DecidableEq

/-- Rust `str::to_lowercase` (the program only compares titles). -/
def strLower (s : String) : String := String.mk (s.toList.map Char.toLower)

/-- Rust `str::trim`: strip leading and trailing whitespace. -/
def trimChars (l : List Char) : List Char :=
  ((l.dropWhile Char.isWhitespace).reverse.dropWhile Char.isWhitespace).reverse

/-- `extract_event_date`: the all-day date if present, else the UTC calendar
date of the timed instant (`date_naive`). -/
def extract_event_date (e : GEvent) : Option Date :=
  match e.start with
  | some st =>
      match st.date with
      | some d => some d
      | Option.none =>
          match st.date_time with
          | some dt => some dt.date
          | Option.none => Option.none
  | Option.none => Option.none

/-- The body of the inner loop of `find_matching_events`: push a pair when
the lower-cased titles and the dates agree and the remote event carries an
id (a remote event with no extractable date is skipped). -/
def matchStep (ce : CalendarEvent) (acc : List (CalendarEvent × FoundCalendarEvent))
    (ge : GEvent) : List (CalendarEvent × FoundCalendarEvent) :=
  match extract_event_date ge with
  | some date =>
      if strLower (ge.summary.getD ("")) = strLower ce.title ∧ date = ce.start_date then
        match ge.id with
        | some i => acc ++ [(ce, ⟨i, ge.summary.getD (""), date, ge.location⟩)]
        | Option.none => acc
      else acc
  | Option.none => acc

/-- The matching phase of `find_matching_events`: for every local event,
scan every fetched remote event. -/
def matchEvents (events : List CalendarEvent) (gcal : List GEvent) :
    List (CalendarEvent × FoundCalendarEvent) :=
  events.foldl (fun acc ce => gcal.foldl (matchStep ce) acc) []

/-- A remote record rendered as the google wire object it was fetched as. -/
def FoundCalendarEvent.toGEvent (r : FoundCalendarEvent) : GEvent :=
  { id := some r.id
    summary := some r.title
    description := Option.none
    location := r.location
    start := some ⟨some r.date, Option.none, Option.none⟩
    endDT := Option.none }

/-- The matching policy as the spec words it: for every local event, every
remote event whose lower-cased title equals the local lower-cased title and
whose date equals the local start date yields one pair. -/
def specMatch (events : List CalendarEvent) (remotes : List FoundCalendarEvent) :
    List (CalendarEvent × FoundCalendarEvent) :=
  events.flatMap fun ce =>
    (remotes.filter fun r =>
        decide (strLower r.title = strLower ce.title ∧ r.date = ce.start_date)).map
      fun r => (ce, r)

/-! ### Paged fetch loop (src/calendar.rs `find_matching_events`,
src/coda.rs `fetch_events`) -/

/-- One page of a remote events listing: the items (optional, as in the wire
shape) and the continuation token. -/
structure EventsPage where
  items : Option (List GEvent)
  next_page_token : Option String
deriving DecidableEq

/-- The page-accumulation loop of `find_matching_events`: request a page for
the current token, extend the accumulator with its items, stop exactly when
the response carries no next-page token.  The remote service is a function
from the sent page token to a page; `fuel` bounds the number of requests the
model is allowed to make, and `Option.none` means the loop was still running
when the fuel ran out. -/
def fetchLoop (resp : Option String → EventsPage) :
    Nat → Option String → List GEvent → Option (List GEvent)
  | 0, _, _ => Option.none
  | Nat.succ fuel, tok, acc =>
      match (resp tok).next_page_token with
      | Option.none => some (acc ++ ((resp tok).items.getD []))
      | some t => fetchLoop resp fuel (some t) (acc ++ ((resp tok).items.getD []))

/-- The fetch loop terminates on this response function: some finite number
of requests reaches the break. -/
def fetchTerminates (resp : Option String → EventsPage) : Prop :=
  ∃ fuel, (fetchLoop resp fuel Option.none []).isSome = true

/-! ### Filtering and ordering (src/main.rs `filter_events`) -/

/-- Strict lexicographic order on dates ((year, month, day)), the order of
chrono `NaiveDate`. -/
def dateLtP (a b : Date) : Prop :=
  a.year < b.year ∨ (a.year = b.year ∧ (a.month < b.month ∨ (a.month = b.month ∧ a.day < b.day)))

instance (a b : Date) : Decidable (dateLtP a b) := by unfold dateLtP; infer_instance

/-- The filter predicate of `filter_events`, mirroring its early-return chain. -/
def keepEvent (sd ed : Option Date) (purchasedOnly : Bool) (e : CalendarEvent) : Bool :=
  if sd.elim false (fun s => decide (dateLtP e.start_date s)) then false
  else if ed.elim false (fun d => decide (dateLtP d e.start_date)) then false
  else if purchasedOnly && !e.purchased then false
  else true

/-- The keep predicate as the spec words it: inside both inclusive bounds
(when present) and purchased when only purchased events are wanted. -/
def specKeep (sd ed : Option Date) (purchasedOnly : Bool) (e : CalendarEvent) : Prop :=
  (∀ s, sd = some s → (dateLtP s e.start_date ∨ s = e.start_date)) ∧
  (∀ d, ed = some d → (dateLtP e.start_date d ∨ e.start_date = d)) ∧
  (purchasedOnly = true → e.purchased = true)

/-- Sort key of the time component: Rust orders `Option<NaiveTime>` with
`None` below every `Some`, and times by their second of day. -/
def timeKey (t : Option Time) : Nat :=
  match t with
  | Option.none => 0
  | some u => u.toSecs + 1

/-- The comparator of the `sort_by` call in `filter_events` as a (total,
transitive) `precedes or ties` relation: `start_date` lexicographically,
ties broken by `start_time` with an absent time first. -/
def eventLe (a b : CalendarEvent) : Prop :=
  dateLtP a.start_date b.start_date ∨
    (a.start_date = b.start_date ∧ timeKey a.start_time ≤ timeKey b.start_time)

instance : DecidableRel eventLe := fun a b => by unfold eventLe; infer_instance

/-- Three-way comparison of integers (Rust `Ord::cmp`). -/
def intCmp (a b : Int) : Ordering :=
  if a < b then Ordering.lt else if b < a then Ordering.gt else Ordering.eq

/-- Three-way comparison of naturals (Rust `Ord::cmp`). -/
def natCmp (a b : Nat) : Ordering :=
  if a < b then Ordering.lt else if b < a then Ordering.gt else Ordering.eq

/-- Rust `NaiveDate::cmp`: lexicographic on (year, month, day). -/
def dateCmp (a b : Date) : Ordering :=
  (intCmp a.year b.year).then ((natCmp a.month b.month).then (natCmp a.day b.day))

/-- Rust `Option::<NaiveTime>::cmp`: `None` below every `Some`, times by
their second of day. -/
def optTimeCmp : Option Time → Option Time → Ordering
  | Option.none, Option.none => Ordering.eq
  | Option.none, some _ => Ordering.lt
  | some _, Option.none => Ordering.gt
  | some x, some y => natCmp x.toSecs y.toSecs

/-- The comparator closure passed to `sort_by` in `filter_events`:
`a.start_date.cmp(&b.start_date).then_with(|| a.start_time.cmp(&b.start_time))`. -/
def eventCmp (a b : CalendarEvent) : Ordering :=
  (dateCmp a.start_date b.start_date).then (optTimeCmp a.start_time b.start_time)

instance : IsTotal CalendarEvent eventLe := by
  constructor
  have key : ∀ (d1 d2 : Date) (k1 k2 : Nat),
      (dateLtP d1 d2 ∨ (d1 = d2 ∧ k1 ≤ k2)) ∨ (dateLtP d2 d1 ∨ (d2 = d1 ∧ k2 ≤ k1)) := by
    intro ⟨y1, m1, a1⟩ ⟨y2, m2, a2⟩ k1 k2
    simp only [dateLtP, Date.mk.injEq]
    omega
  intro a b
  exact key a.start_date b.start_date (timeKey a.start_time) (timeKey b.start_time)

instance : IsTrans CalendarEvent eventLe := by
  constructor
  have key : ∀ (d1 d2 d3 : Date) (k1 k2 k3 : Nat),
      (dateLtP d1 d2 ∨ (d1 = d2 ∧ k1 ≤ k2)) → (dateLtP d2 d3 ∨ (d2 = d3 ∧ k2 ≤ k3)) →
      (dateLtP d1 d3 ∨ (d1 = d3 ∧ k1 ≤ k3)) := by
    intro ⟨y1, m1, a1⟩ ⟨y2, m2, a2⟩ ⟨y3, m3, a3⟩ k1 k2 k3
    simp only [dateLtP, Date.mk.injEq]
    omega
  intro a b c hab hbc
  exact key a.start_date b.start_date c.start_date _ _ _ hab hbc

/-- The full sort key of an event, used to state stability. -/
def eventKey (e : CalendarEvent) : Int × Nat × Nat × Nat :=
  (e.start_date.year, e.start_date.month, e.start_date.day, timeKey e.start_time)

/-- `filter_events` (src/main.rs): filter, then stable sort by the
date/time comparator.  Rust `sort_by` is a stable sort, and a stable sort
for a total transitive comparator is unique, so it is embedded as insertion
sort with `eventLe`. -/
def filter_events (events : List CalendarEvent) (start_date end_date : Option Date)
    (purchasedOnly : Bool) : List CalendarEvent :=
  (events.filter (keepEvent start_date end_date purchasedOnly)).insertionSort eventLe

/-! ### Temporal string parsing (src/coda.rs `parse_coda_datetime`,
src/csv_parser.rs `parse_date` and `parse_time`)

Every chrono format string the program tries is embedded as a scanner over
the character list of the (trimmed) input; a scanner succeeds only when it
consumes the whole input, as chrono `parse_from_str` does.  Two-digit
numeric fields accept one or two digits and the year up to four, following
chrono's greedy numeric parsing; parsed values are validated like chrono's
`from_ymd_opt` / `from_hms_opt`. -/

def digitVal (c : Char) : Option Nat :=
  if c.isDigit then some (c.toNat - 48) else Option.none

/-- Greedily read at most `maxd` leading digits; returns the value, the
count of digits read and the rest of the input. -/
def takeDigitsGo : Nat → Nat → Nat → List Char → Nat × Nat × List Char
  | 0, acc, cnt, l => (acc, cnt, l)
  | _ + 1, acc, cnt, [] => (acc, cnt, [])
  | m + 1, acc, cnt, c :: l =>
      match digitVal c with
      | some d => takeDigitsGo m (acc * 10 + d) (cnt + 1) l
      | Option.none => (acc, cnt, c :: l)

/-- Read between one and `maxd` digits. -/
def takeNum (maxd : Nat) (l : List Char) : Option (Nat × List Char) :=
  match takeDigitsGo maxd 0 0 l with
  | (v, cnt, rest) => if cnt = 0 then Option.none else some (v, rest)

/-- Match one literal character. -/
def lit (c : Char) : List Char → Option (List Char)
  | x :: l => if x = c then some l else Option.none
  | [] => Option.none

/-- Succeed only at the end of the input. -/
def atEnd : List Char → Option Unit
  | [] => some ()
  | _ :: _ => Option.none

/-- chrono `from_ymd_opt`: the date must exist on the calendar. -/
def mkDate (y : Int) (m d : Nat) : Option Date :=
  if 1 ≤ m ∧ m ≤ 12 ∧ 1 ≤ d ∧ d ≤ daysInMonth y m then some ⟨y, m, d⟩ else Option.none

/-- chrono `from_hms_opt` (second precision). -/
def mkTime (h m s : Nat) : Option Time :=
  if h < 24 ∧ m < 60 ∧ s < 60 then some ⟨h, m, s⟩ else Option.none

/-- A 12-hour clock value with meridiem (`pm`), validated like chrono `%I`/`%p`. -/
def mkTime12 (h12 m s : Nat) (pm : Bool) : Option Time :=
  if 1 ≤ h12 ∧ h12 ≤ 12 ∧ m < 60 ∧ s < 60 then
    some ⟨(if h12 = 12 then 0 else h12) + (if pm then 12 else 0), m, s⟩
  else Option.none

/-- Scan `%Y<sep>%m<sep>%d`. -/
def scanDateSep (sep : Char) (l : List Char) : Option (Date × List Char) := do
  let (y, l) ← takeNum 4 l
  let l ← lit sep l
  let (m, l) ← takeNum 2 l
  let l ← lit sep l
  let (d, l) ← takeNum 2 l
  let date ← mkDate (Int.ofNat y) m d
  pure (date, l)

/-- Scan a two-field-then-year date: `%m<sep>%d<sep>%Y` when `monthFirst`,
else `%d<sep>%m<sep>%Y`. -/
def scanSlashDate (monthFirst : Bool) (sep : Char) (l : List Char) :
    Option (Date × List Char) := do
  let (a, l) ← takeNum 2 l
  let l ← lit sep l
  let (b, l) ← takeNum 2 l
  let l ← lit sep l
  let (y, l) ← takeNum 4 l
  let date ← if monthFirst then mkDate (Int.ofNat y) a b else mkDate (Int.ofNat y) b a
  pure (date, l)

/-- Scan `%H:%M:%S`. -/
def scanTimeHMS (l : List Char) : Option (Time × List Char) := do
  let (h, l) ← takeNum 2 l
  let l ← lit ':' l
  let (m, l) ← takeNum 2 l
  let l ← lit ':' l
  let (s, l) ← takeNum 2 l
  let t ← mkTime h m s
  pure (t, l)

/-- Scan `%H:%M` (seconds default to zero). -/
def scanTimeHM (l : List Char) : Option (Time × List Char) := do
  let (h, l) ← takeNum 2 l
  let l ← lit ':' l
  let (m, l) ← takeNum 2 l
  let t ← mkTime h m 0
  pure (t, l)

/-- Scan chrono `%.f`: nothing, or a dot followed by fractional digits. -/
def scanFrac (l : List Char) : Option (List Char) :=
  match l with
  | '.' :: rest =>
      match takeNum 9 rest with
      | some (_, rest2) => some rest2
      | Option.none => Option.none
  | _ => some l

/-- Scan `HH:MM` of a numeric UTC offset. -/
def scanOffsetHM (l : List Char) : Option (List Char) := do
  let (h, l) ← takeNum 2 l
  let l ← lit ':' l
  let (m, l) ← takeNum 2 l
  if h < 24 ∧ m < 60 then pure l else Option.none

/-- Scan chrono `%:z`: a signed `±HH:MM` offset. -/
def scanOffsetColon (l : List Char) : Option (List Char) :=
  match l with
  | '+' :: rest => scanOffsetHM rest
  | '-' :: rest => scanOffsetHM rest
  | _ => Option.none

/-- Scan an RFC 3339 offset: `Z` (either case) or `±HH:MM`. -/
def scanOffsetRfc (l : List Char) : Option (List Char) :=
  match l with
  | 'Z' :: rest => some rest
  | 'z' :: rest => some rest
  | '+' :: rest => scanOffsetHM rest
  | '-' :: rest => scanOffsetHM rest
  | _ => Option.none

/-- Scan an uppercased meridiem marker; `true` means PM. -/
def scanMeridiem : List Char → Option (Bool × List Char)
  | 'A' :: 'M' :: rest => some (false, rest)
  | 'P' :: 'M' :: rest => some (true, rest)
  | _ => Option.none

/-- `DateTime::parse_from_rfc3339`; the returned components are the local
wall-clock date and time as written (`date_naive()` / `time()`). -/
def fRfc3339 (l : List Char) : Option (Date × Time) := do
  let (d, l) ← scanDateSep '-' l
  let l ← lit 'T' l <|> lit 't' l <|> lit ' ' l
  let (t, l) ← scanTimeHMS l
  let l ← scanFrac l
  let l ← scanOffsetRfc l
  let _ ← atEnd l
  pure (d, t)

/-- Format "%Y-%m-%dT%H:%M:%S%:z". -/
def fIsoOffsetNoFrac (l : List Char) : Option (Date × Time) := do
  let (d, l) ← scanDateSep '-' l
  let l ← lit 'T' l
  let (t, l) ← scanTimeHMS l
  let l ← scanOffsetColon l
  let _ ← atEnd l
  pure (d, t)

/-- Format "%Y-%m-%dT%H:%M:%S". -/
def fIsoTSec (l : List Char) : Option (Date × Time) := do
  let (d, l) ← scanDateSep '-' l
  let l ← lit 'T' l
  let (t, l) ← scanTimeHMS l
  let _ ← atEnd l
  pure (d, t)

/-- Format "%Y-%m-%dT%H:%M:%S%.f". -/
def fIsoTSecFrac (l : List Char) : Option (Date × Time) := do
  let (d, l) ← scanDateSep '-' l
  let l ← lit 'T' l
  let (t, l) ← scanTimeHMS l
  let l ← scanFrac l
  let _ ← atEnd l
  pure (d, t)

/-- Format "%Y-%m-%dT%H:%M". -/
def fIsoTMin (l : List Char) : Option (Date × Time) := do
  let (d, l) ← scanDateSep '-' l
  let l ← lit 'T' l
  let (t, l) ← scanTimeHM l
  let _ ← atEnd l
  pure (d, t)

/-- Format "%Y-%m-%d %H:%M:%S". -/
def fSpaceSec (l : List Char) : Option (Date × Time) := do
  let (d, l) ← scanDateSep '-' l
  let l ← lit ' ' l
  let (t, l) ← scanTimeHMS l
  let _ ← atEnd l
  pure (d, t)

/-- Format "%Y-%m-%d %H:%M". -/
def fSpaceMin (l : List Char) : Option (Date × Time) := do
  let (d, l) ← scanDateSep '-' l
  let l ← lit ' ' l
  let (t, l) ← scanTimeHM l
  let _ ← atEnd l
  pure (d, t)

/-- Format "%m/%d/%Y %I:%M %p" on the uppercased input. -/
def fUSMin (l : List Char) : Option (Date × Time) := do
  let (d, l) ← scanSlashDate true '/' l
  let l ← lit ' ' l
  let (h12, l) ← takeNum 2 l
  let l ← lit ':' l
  let (m, l) ← takeNum 2 l
  let l ← lit ' ' l
  let (pm, l) ← scanMeridiem l
  let t ← mkTime12 h12 m 0 pm
  let _ ← atEnd l
  pure (d, t)

/-- Format "%m/%d/%Y %I:%M:%S %p" on the uppercased input. -/
def fUSSec (l : List Char) : Option (Date × Time) := do
  let (d, l) ← scanSlashDate true '/' l
  let l ← lit ' ' l
  let (h12, l) ← takeNum 2 l
  let l ← lit ':' l
  let (m, l) ← takeNum 2 l
  let l ← lit ':' l
  let (s, l) ← takeNum 2 l
  let l ← lit ' ' l
  let (pm, l) ← scanMeridiem l
  let t ← mkTime12 h12 m s pm
  let _ ← atEnd l
  pure (d, t)

/-- Date-only format "%Y-%m-%d". -/
def fDateISO (l : List Char) : Option Date := do
  let (d, l) ← scanDateSep '-' l
  let _ ← atEnd l
  pure d

/-- Date-only format "%m/%d/%Y" (month first). -/
def fDateMDY (l : List Char) : Option Date := do
  let (d, l) ← scanSlashDate true '/' l
  let _ ← atEnd l
  pure d

/-- Date-only format "%d/%m/%Y" (day first). -/
def fDateDMY (l : List Char) : Option Date := do
  let (d, l) ← scanSlashDate false '/' l
  let _ ← atEnd l
  pure d

/-- Date-only format "%Y/%m/%d" (csv only). -/
def fDateYMDslash (l : List Char) : Option Date := do
  let (d, l) ← scanDateSep '/' l
  let _ ← atEnd l
  pure d

/-- Date-only format "%m-%d-%Y" (csv only). -/
def fDateMDYdash (l : List Char) : Option Date := do
  let (d, l) ← scanSlashDate true '-' l
  let _ ← atEnd l
  pure d

/-- The date+time format families `parse_coda_datetime` tries before the
date-only family, in source order. -/
def codaDatetimeAttempts (cs : List Char) : Option (Date × Time) :=
  fRfc3339 cs <|> fIsoOffsetNoFrac cs <|> fIsoTSec cs <|> fIsoTSecFrac cs <|>
    fIsoTMin cs <|> fSpaceSec cs <|> fSpaceMin cs <|>
    fUSMin (cs.map Char.toUpper) <|> fUSSec (cs.map Char.toUpper)

/-- The date-only formats of `parse_coda_datetime`, in source order. -/
def codaDateOnly (cs : List Char) : Option Date :=
  fDateISO cs <|> fDateMDY cs <|> fDateDMY cs

/-- `parse_coda_datetime` (src/coda.rs): the error carries the raw string. -/
def parse_coda_datetime (s : String) : Except String (Date × Option Time) :=
  match codaDatetimeAttempts (trimChars s.toList) with
  | some (d, t) => Except.ok (d, some t)
  | Option.none =>
      match codaDateOnly (trimChars s.toList) with
      | some d => Except.ok (d, Option.none)
      | Option.none => Except.error s

/-- `parse_date` (src/csv_parser.rs): five date-only formats in order. -/
def parse_date (s : String) : Option Date :=
  fDateISO (trimChars s.toList) <|> fDateMDY (trimChars s.toList) <|>
    fDateDMY (trimChars s.toList) <|> fDateYMDslash (trimChars s.toList) <|>
    fDateMDYdash (trimChars s.toList)

/-- Time-only format "%H:%M:%S". -/
def fTimeHMS (l : List Char) : Option Time := do
  let (t, l) ← scanTimeHMS l
  let _ ← atEnd l
  pure t

/-- Time-only format "%H:%M". -/
def fTimeHM (l : List Char) : Option Time := do
  let (t, l) ← scanTimeHM l
  let _ ← atEnd l
  pure t

/-- Time-only format "%I:%M:%S %p". -/
def fTime12Sec (l : List Char) : Option Time := do
  let (h12, l) ← takeNum 2 l
  let l ← lit ':' l
  let (m, l) ← takeNum 2 l
  let l ← lit ':' l
  let (s, l) ← takeNum 2 l
  let l ← lit ' ' l
  let (pm, l) ← scanMeridiem l
  let t ← mkTime12 h12 m s pm
  let _ ← atEnd l
  pure t

/-- Time-only format "%I:%M %p". -/
def fTime12Min (l : List Char) : Option Time := do
  let (h12, l) ← takeNum 2 l
  let l ← lit ':' l
  let (m, l) ← takeNum 2 l
  let l ← lit ' ' l
  let (pm, l) ← scanMeridiem l
  let t ← mkTime12 h12 m 0 pm
  let _ ← atEnd l
  pure t

/-- Time-only format "%I:%M%p" (no space before the marker). -/
def fTime12MinTight (l : List Char) : Option Time := do
  let (h12, l) ← takeNum 2 l
  let l ← lit ':' l
  let (m, l) ← takeNum 2 l
  let (pm, l) ← scanMeridiem l
  let t ← mkTime12 h12 m 0 pm
  let _ ← atEnd l
  pure t

/-- `parse_time` (src/csv_parser.rs): trims, uppercases, tries five formats. -/
def parse_time (s : String) : Option Time :=
  fTimeHMS ((trimChars s.toList).map Char.toUpper) <|>
    fTimeHM ((trimChars s.toList).map Char.toUpper) <|>
    fTime12Sec ((trimChars s.toList).map Char.toUpper) <|>
    fTime12Min ((trimChars s.toList).map Char.toUpper) <|>
    fTime12MinTight ((trimChars s.toList).map Char.toUpper)

/-! ### Row mapping (src/coda.rs `parse_coda_row`,
src/csv_parser.rs `parse_record` / `parse_csv`) -/

/-- The error kinds of the mappers (the anyhow messages of the source carry
the same data as free text). -/
inductive MapErr where
  | missingField (name : String)
  | invalidTemporal (field : String) (raw : String)
deriving DecidableEq

deriving instance DecidableEq for Except

/-- The serde_json values a Coda cell can hold, as `get_string_value` views
them: a string, null, or any other value together with its `to_string()`
rendering. -/
inductive JsonVal where
  | str (s : String)
  | null
  | other (rendered : String)
deriving DecidableEq

/-- A Coda row: the `values` map from column name to cell value. -/
abbrev RowValues := List (String × JsonVal)

/-- Rust `str::trim_matches(c)`: strip every leading and trailing `c`. -/
def trimMatchesChar (c : Char) (s : String) : String :=
  String.mk (((s.toList.dropWhile (fun x => x == c)).reverse.dropWhile
    (fun x => x == c)).reverse)

/-- `get_string_value` (src/coda.rs): string values pass through, null is
missing, other values are rendered and stripped of double quotes; empty
strings count as missing. -/
def get_string_value (values : RowValues) (key : String) : Option String :=
  (match values.lookup key with
   | some (JsonVal.str s) => some s
   | some JsonVal.null => Option.none
   | some (JsonVal.other r) => some (trimMatchesChar '"' r)
   | Option.none => Option.none).filter fun s => !s.isEmpty

/-- `build_description` (src/coda.rs): kenticoUrl, artists and works joined
with newlines; absent when no part is present. -/
def build_description (values : RowValues) : Option String :=
  let parts := [get_string_value values ("kenticoUrl"),
                get_string_value values ("artists"),
                get_string_value values ("works")].filterMap id
  if parts.isEmpty then Option.none else some (String.intercalate ("\n") parts)

def DEFAULT_EVENT_DURATION_MINUTES : Nat := 150

/-- The end-time derivation of `parse_coda_row`: add the default duration to
the start datetime and keep only the time of day (the date component is
dropped, so a wrap past midnight yields an earlier wall-clock time). -/
def addDurationWallTime (t : Time) (mins : Nat) : Time :=
  Time.ofSecs ((t.toSecs + mins * 60) % 86400)

/-- `parse_coda_row` (src/coda.rs); the `?` early returns are the error
branches of the matches. -/
def parse_coda_row (values : RowValues) : Except MapErr CalendarEvent :=
  match get_string_value values ("Display") with
  | Option.none => Except.error (MapErr.missingField ("Display"))
  | some title =>
      match get_string_value values ("performanceDate") with
      | Option.none => Except.error (MapErr.missingField ("performanceDate"))
      | some pd =>
          match parse_coda_datetime pd with
          | Except.error _ => Except.error (MapErr.invalidTemporal ("performanceDate") pd)
          | Except.ok st =>
              Except.ok
                { title
                  description := build_description values
                  location := get_string_value values ("venue")
                  organization := get_string_value values ("Organization")
                  purchased := ((get_string_value values ("Purchased")).map
                    (fun v => strLower v == ("yes") || strLower v == ("true"))).getD false
                  start_date := st.1
                  start_time := st.2
                  end_date := st.1
                  end_time := st.2.map fun t =>
                    addDurationWallTime t DEFAULT_EVENT_DURATION_MINUTES }

/-- The row loop of `fetch_events` (src/coda.rs): parse every row, keep the
successes, skip (only warn about) the failures. -/
def codaCollectRows (rows : List RowValues) : List CalendarEvent :=
  rows.foldl (fun acc row =>
    match parse_coda_row row with
    | Except.ok e => acc ++ [e]
    | Except.error _ => acc) []

/-- A deserialized CSV row (src/csv_parser.rs `CsvRecord`). -/
structure CsvRecord where
  title : String
  description : Option String
  location : Option String
  start_date : String
  start_time : Option String
  end_date : Option String
  end_time : Option String
deriving DecidableEq

/-- An optional raw field that is present and non-empty (the
`Some(t) if !t.is_empty()` guards of `parse_record`), parsed with `f`,
with the error to raise when parsing fails. -/
def parseOptField {α : Type} (f : String → Option α) (field : String) :
    Option String → Except MapErr (Option α)
  | some ts =>
      if ts.isEmpty then Except.ok Option.none
      else match f ts with
        | some v => Except.ok (some v)
        | Option.none => Except.error (MapErr.invalidTemporal field ts)
  | Option.none => Except.ok Option.none

/-- `parse_record` (src/csv_parser.rs); the `?` early returns are the error
branches of the matches. -/
def parse_record (r : CsvRecord) : Except MapErr CalendarEvent :=
  match parse_date r.start_date with
  | Option.none => Except.error (MapErr.invalidTemporal ("start_date") r.start_date)
  | some start_date =>
      match (match r.end_date with
             | some ds =>
                 if ds.isEmpty then Except.ok start_date
                 else match parse_date ds with
                   | some d => Except.ok d
                   | Option.none => Except.error (MapErr.invalidTemporal ("end_date") ds)
             | Option.none => Except.ok start_date) with
      | Except.error e => Except.error e
      | Except.ok end_date =>
          match parseOptField parse_time ("start_time") r.start_time with
          | Except.error e => Except.error e
          | Except.ok start_time =>
              match parseOptField parse_time ("end_time") r.end_time with
              | Except.error e => Except.error e
              | Except.ok end_time =>
                  Except.ok
                    { title := r.title
                      description := r.description.filter fun s => !s.isEmpty
                      location := r.location.filter fun s => !s.isEmpty
                      organization := Option.none
                      purchased := false
                      start_date
                      start_time
                      end_date
                      end_time }

/-- The row loop of `parse_csv` (src/csv_parser.rs): the `?` on each row
propagates the first failure, discarding every event already mapped. -/
def parse_csv : List CsvRecord → Except MapErr (List CalendarEvent)
  | [] => Except.ok []
  | r :: rs =>
      match parse_record r with
      | Except.error e => Except.error e
      | Except.ok ev =>
          match parse_csv rs with
          | Except.error e => Except.error e
          | Except.ok evs => Except.ok (ev :: evs)

/-! ### Concrete sample inputs used by witnesses and counterexamples -/

/-- A timed event whose start wall clock (2024-03-10 02:30) falls in the Los
Angeles spring-forward gap: that local time does not exist. -/
def gapEvent : CalendarEvent :=
  { title := "Gap show"
    description := Option.none
    location := Option.none
    organization := Option.none
    purchased := false
    start_date := ⟨2024, 3, 10⟩
    start_time := some ⟨2, 30, 0⟩
    end_date := ⟨2024, 3, 10⟩
    end_time := some ⟨5, 0, 0⟩ }

/-- An ordinary timed summer event (2024-07-04 19:30 to 22:00). -/
def timedSample : CalendarEvent :=
  { title := "July show"
    description := Option.none
    location := Option.none
    organization := Option.none
    purchased := false
    start_date := ⟨2024, 7, 4⟩
    start_time := some ⟨19, 30, 0⟩
    end_date := ⟨2024, 7, 4⟩
    end_time := some ⟨22, 0, 0⟩ }

/-- A timed event starting 2024-11-03 01:30, a wall clock that occurs twice
in Los Angeles (fall-back transition). -/
def fallBackEvent : CalendarEvent :=
  { title := "Fall back show"
    description := Option.none
    location := Option.none
    organization := Option.none
    purchased := false
    start_date := ⟨2024, 11, 3⟩
    start_time := some ⟨1, 30, 0⟩
    end_date := ⟨2024, 11, 3⟩
    end_time := some ⟨4, 0, 0⟩ }

/-- A timed event starting 2024-11-03 00:30 (unambiguous) and ending 01:30,
a wall clock that occurs twice in Los Angeles (fall-back transition). -/
def fallBackEndEvent : CalendarEvent :=
  { title := "Fall back late show"
    description := Option.none
    location := Option.none
    organization := Option.none
    purchased := false
    start_date := ⟨2024, 11, 3⟩
    start_time := some ⟨0, 30, 0⟩
    end_date := ⟨2024, 11, 3⟩
    end_time := some ⟨1, 30, 0⟩ }

/-- An all-day event ending on a month boundary (2024-01-31). -/
def allDaySample : CalendarEvent :=
  { title := "Festival"
    description := Option.none
    location := Option.none
    organization := Option.none
    purchased := false
    start_date := ⟨2024, 1, 30⟩
    start_time := Option.none
    end_date := ⟨2024, 1, 31⟩
    end_time := Option.none }

/-- A local event titled Gala on 2024-03-01. -/
def galaLocal : CalendarEvent :=
  { title := "Gala"
    description := Option.none
    location := Option.none
    organization := Option.none
    purchased := false
    start_date := ⟨2024, 3, 1⟩
    start_time := Option.none
    end_date := ⟨2024, 3, 1⟩
    end_time := Option.none }

/-- A first remote duplicate titled in lower case on the same date. -/
def galaRemote1 : FoundCalendarEvent :=
  { id := "r1", title := "gala", date := ⟨2024, 3, 1⟩, location := Option.none }

/-- A second remote duplicate titled in lower case on the same date. -/
def galaRemote2 : FoundCalendarEvent :=
  { id := "r2", title := "gala", date := ⟨2024, 3, 1⟩, location := Option.none }

/-- A remote service whose first response carries one item and no
next-page token. -/
def onePageResp : Option String → EventsPage :=
  fun _ => { items := some [galaRemote1.toGEvent], next_page_token := Option.none }

/-- A remote service that returns items and the same next-page token on
every request: advancement fails forever. -/
def loopingResp : Option String → EventsPage :=
  fun _ => { items := some [galaRemote1.toGEvent], next_page_token := some ("tok") }

/-- A CSV row with a start time and no end time. -/
def csvMixedRecord : CsvRecord :=
  { title := "Mixed row"
    description := Option.none
    location := Option.none
    start_date := "2024-05-01"
    start_time := some ("14:30")
    end_time := Option.none
    end_date := Option.none }

/-- The event `parse_record` maps `csvMixedRecord` to: its start time is
present and its end time absent. -/
def csvMixedEvent : CalendarEvent :=
  { title := "Mixed row"
    description := Option.none
    location := Option.none
    organization := Option.none
    purchased := false
    start_date := ⟨2024, 5, 1⟩
    start_time := some ⟨14, 30, 0⟩
    end_date := ⟨2024, 5, 1⟩
    end_time := Option.none }

/-- A CSV row whose start date parses under no supported format. -/
def csvBadRecord : CsvRecord :=
  { title := "Bad row"
    description := Option.none
    location := Option.none
    start_date := "garbage"
    start_time := Option.none
    end_time := Option.none
    end_date := Option.none }

/-- A well-formed CSV row following `csvBadRecord` in the file. -/
def csvGoodRecord : CsvRecord :=
  { title := "Good row"
    description := Option.none
    location := Option.none
    start_date := "2024-05-02"
    start_time := Option.none
    end_time := Option.none
    end_date := Option.none }

/-- A well-formed Coda row with a timed performance date. -/
def codaSampleRow : RowValues :=
  [("Display", JsonVal.str ("Gala Night")),
   ("performanceDate", JsonVal.str ("2024-02-15T19:30:00")),
   ("Purchased", JsonVal.str ("Yes")),
   ("venue", JsonVal.str ("Hall"))]

/-- A Coda row whose performance date parses under no supported format. -/
def codaBadRow : RowValues :=
  [("Display", JsonVal.str ("Broken")),
   ("performanceDate", JsonVal.str ("not a date"))]

/-- The event `parse_coda_row` maps `codaSampleRow` to: a timed 19:30 event
ending at 22:00 (the 150-minute default duration) on the same date. -/
def codaSampleEvent : CalendarEvent :=
  { title := "Gala Night"
    description := Option.none
    location := some ("Hall")
    organization := Option.none
    purchased := true
    start_date := ⟨2024, 2, 15⟩
    start_time := some ⟨19, 30, 0⟩
    end_date := ⟨2024, 2, 15⟩
    end_time := some ⟨22, 0, 0⟩ }

/-- A Coda row starting at 23:00, whose derived end time wraps past
midnight. -/
def codaLateRow : RowValues :=
  [("Display", JsonVal.str ("Midnight show")),
   ("performanceDate", JsonVal.str ("2024-02-15T23:00:00"))]

/-- The event `parse_coda_row` maps `codaLateRow` to: the derived end time
01:30 wrapped past midnight while `end_date` stayed equal to `start_date`. -/
def codaLateEvent : CalendarEvent :=
  { title := "Midnight show"
    description := Option.none
    location := Option.none
    organization := Option.none
    purchased := false
    start_date := ⟨2024, 2, 15⟩
    start_time := some ⟨23, 0, 0⟩
    end_date := ⟨2024, 2, 15⟩
    end_time := some ⟨1, 30, 0⟩ }

/-! ## Theorems -/

theorem daysInMonth_pos (y : Int) (m : Nat) (h1 : 1 ≤ m) (h2 : m ≤ 12) :
    1 ≤ daysInMonth y m := by
  interval_cases m <;> first
    | (simp only [daysInMonth]; omega)
    | (simp only [daysInMonth]; split <;> omega)

theorem Date.pred_succ (d : Date) (h : d.wf) : d.succ.pred = d := by
  obtain ⟨hm1, hm2, hd1, hd2⟩ := h
  unfold Date.succ Date.pred
  rcases d with ⟨y, m, dy⟩
  simp only at *
  by_cases hlt : dy < daysInMonth y m
  · simp only [if_pos hlt]
    have : 1 < dy + 1 := by omega
    simp [this]
  · simp only [if_neg hlt]
    have hdy : dy = daysInMonth y m := by omega
    by_cases hm : m < 12
    · simp only [if_pos hm]
      have h1 : ¬ (1 : Nat) < 1 := by omega
      have h2 : 1 < m + 1 := by omega
      simp [h1, h2, hdy]
    · simp only [if_neg hm]
      have hm12 : m = 12 := by omega
      subst hm12
      have : dy = 31 := by simpa [daysInMonth] using hdy
      subst this
      norm_num

theorem Time.toSecs_ofSecs (n : Nat) : (Time.ofSecs n).toSecs = n := by
  simp only [Time.ofSecs, Time.toSecs]
  omega

/-- In the fall-back hour the two candidate instants stay on the local date
and the one from the standard offset is one hour later. -/
theorem ambiguous_shape (dt e l : DateTime)
    (h : fromLocalLosAngeles dt = LocalResult.ambiguous e l) :
    e = addHoursRoll dt 7 ∧ l = addHoursRoll dt 8 ∧ e.utcSecs < l.utcSecs := by
  unfold fromLocalLosAngeles at h
  split at h
  · exact absurd h (by simp)
  · split at h
    · rename_i hcond
      obtain ⟨hd, hlo, hhi⟩ := hcond
      injection h with he hl
      subst he
      subst hl
      refine ⟨rfl, rfl, ?_⟩
      have hb1 : dt.time.toSecs + 7 * 3600 < 86400 := by omega
      have hb2 : dt.time.toSecs + 8 * 3600 < 86400 := by omega
      unfold addHoursRoll DateTime.utcSecs
      rw [if_pos hb1, if_pos hb2]
      dsimp only
      rw [Time.toSecs_ofSecs, Time.toSecs_ofSecs]
      omega
    · split at h <;> exact absurd h (by simp)

/-- C1: the claim that `project(event, reference_zone)` never fails for a
well-formed CanonicalEvent, with a spring-forward gap resolved by a
forward-shift convention, is FALSE on the code: for the timed event
`gapEvent`, whose start wall clock 2024-03-10 02:30 does not exist in
America/Los_Angeles, `from_local_datetime` returns `LocalResult::None`, so
both `single()` and `latest()` are `None` and the `unwrap()` in
`convert_to_google_event` panics (modelled as `Option.none`) instead of
yielding a WireEvent. -/
theorem c1_gap_counterexample :
    gapEvent.timesConsistent ∧ convert_to_google_event gapEvent = Option.none := by
  constructor
  · decide
  · decide

/-- C1 (amended): for every well-formed CanonicalEvent whose effective start
and end wall-clock datetimes exist in the reference zone (are not in a
spring-forward gap), the projection yields a WireEvent; times in the gap
make the code panic. -/
theorem c1_projection_total_amended (ev : CalendarEvent)
    (_hcons : ev.timesConsistent)
    (hs : fromLocalLosAngeles ev.start_datetime ≠ LocalResult.nonexistent)
    (he : fromLocalLosAngeles ev.end_datetime ≠ LocalResult.nonexistent) :
    (convert_to_google_event ev).isSome = true := by
  unfold convert_to_google_event
  split
  · rfl
  · unfold resolveLocal
    rcases hfs : fromLocalLosAngeles ev.start_datetime with u | ⟨e1, l1⟩ | _
    · rcases hfe : fromLocalLosAngeles ev.end_datetime with v | ⟨e2, l2⟩ | _
      · rfl
      · rfl
      · exact absurd hfe he
    · rcases hfe : fromLocalLosAngeles ev.end_datetime with v | ⟨e2, l2⟩ | _
      · rfl
      · rfl
      · exact absurd hfe he
    · exact absurd hfs hs

theorem c1_projection_total_amended_witness :
    timedSample.timesConsistent ∧ (convert_to_google_event timedSample).isSome = true :=
  ⟨by decide, c1_projection_total_amended timedSample (by decide) (by decide) (by decide)⟩

/-- C5: for every all-day CanonicalEvent (with a representable end date),
the wire start is `start_date` unchanged and the wire end is the calendar
successor of `end_date` (month/year rollover included), so subtracting one
day from the wire end date reproduces `end_date` exactly. -/
theorem c5_allday_exclusive_end (ev : CalendarEvent)
    (hall : ev.is_all_day = true) (hwf : ev.end_date.wf) :
    convert_to_google_event ev = some
      { id := Option.none
        summary := some ev.title
        description := ev.description
        location := ev.location
        start := some ⟨some ev.start_date, Option.none, Option.none⟩
        endDT := some ⟨some ev.end_date.succ, Option.none, Option.none⟩ } ∧
    ev.end_date.succ.pred = ev.end_date := by
  refine ⟨?_, Date.pred_succ _ hwf⟩
  simp [convert_to_google_event, hall]

theorem c5_allday_exclusive_end_witness :
    allDaySample.is_all_day = true ∧ Date.wf allDaySample.end_date ∧
    convert_to_google_event allDaySample = some
      { id := Option.none
        summary := some ("Festival")
        description := Option.none
        location := Option.none
        start := some ⟨some ⟨2024, 1, 30⟩, Option.none, Option.none⟩
        endDT := some ⟨some ⟨2024, 2, 1⟩, Option.none, Option.none⟩ } ∧
    Date.pred ⟨2024, 2, 1⟩ = ⟨2024, 1, 31⟩ := by
  refine ⟨by decide, by decide, ?_, ?_⟩
  · exact (c5_allday_exclusive_end allDaySample (by decide) (by decide)).1
  · exact (c5_allday_exclusive_end allDaySample (by decide) (by decide)).2

/-- C6: for every timed CanonicalEvent whose effective start (or end)
wall-clock datetime is ambiguous in the reference zone (fall-back
transition), the projection resolves that wall-clock value — the start,
respectively the end — to the later of the two candidate UTC instants. -/
theorem c6_fallback_latest (ev : CalendarEvent) (e l e2 l2 : DateTime)
    (hst : ev.start_time.isSome = true) :
    (fromLocalLosAngeles ev.start_datetime = LocalResult.ambiguous e l →
      fromLocalLosAngeles ev.end_datetime ≠ LocalResult.nonexistent →
      (∃ g, convert_to_google_event ev = some g ∧
          g.start = some ⟨Option.none, some l, some ("America/Los_Angeles")⟩) ∧
      e.utcSecs < l.utcSecs) ∧
    (fromLocalLosAngeles ev.end_datetime = LocalResult.ambiguous e2 l2 →
      fromLocalLosAngeles ev.start_datetime ≠ LocalResult.nonexistent →
      (∃ g, convert_to_google_event ev = some g ∧
          g.endDT = some ⟨Option.none, some l2, some ("America/Los_Angeles")⟩) ∧
      e2.utcSecs < l2.utcSecs) := by
  have hall : ev.is_all_day = false := by
    unfold CalendarEvent.is_all_day
    rcases h : ev.start_time with _ | t
    · rw [h] at hst; simp at hst
    · rfl
  constructor
  · intro hamb hend
    refine ⟨?_, (ambiguous_shape _ _ _ hamb).2.2⟩
    unfold convert_to_google_event
    rw [hall]
    simp only [Bool.false_eq_true, if_false]
    unfold resolveLocal
    rw [hamb]
    rcases hfe : fromLocalLosAngeles ev.end_datetime with v | ⟨e3, l3⟩ | _
    · exact ⟨_, rfl, rfl⟩
    · exact ⟨_, rfl, rfl⟩
    · exact absurd hfe hend
  · intro hamb hstart
    refine ⟨?_, (ambiguous_shape _ _ _ hamb).2.2⟩
    unfold convert_to_google_event
    rw [hall]
    simp only [Bool.false_eq_true, if_false]
    unfold resolveLocal
    rw [hamb]
    rcases hfs : fromLocalLosAngeles ev.start_datetime with v | ⟨e3, l3⟩ | _
    · exact ⟨_, rfl, rfl⟩
    · exact ⟨_, rfl, rfl⟩
    · exact absurd hfs hstart

theorem c6_fallback_latest_witness :
    ((∃ g, convert_to_google_event fallBackEvent = some g ∧
        g.start = some ⟨Option.none, some ⟨⟨2024, 11, 3⟩, ⟨9, 30, 0⟩⟩,
          some ("America/Los_Angeles")⟩) ∧
      DateTime.utcSecs ⟨⟨2024, 11, 3⟩, ⟨8, 30, 0⟩⟩ <
        DateTime.utcSecs ⟨⟨2024, 11, 3⟩, ⟨9, 30, 0⟩⟩) ∧
    ((∃ g, convert_to_google_event fallBackEndEvent = some g ∧
        g.endDT = some ⟨Option.none, some ⟨⟨2024, 11, 3⟩, ⟨9, 30, 0⟩⟩,
          some ("America/Los_Angeles")⟩) ∧
      DateTime.utcSecs ⟨⟨2024, 11, 3⟩, ⟨8, 30, 0⟩⟩ <
        DateTime.utcSecs ⟨⟨2024, 11, 3⟩, ⟨9, 30, 0⟩⟩) :=
  ⟨(c6_fallback_latest fallBackEvent ⟨⟨2024, 11, 3⟩, ⟨8, 30, 0⟩⟩ ⟨⟨2024, 11, 3⟩, ⟨9, 30, 0⟩⟩
      ⟨⟨2024, 11, 3⟩, ⟨8, 30, 0⟩⟩ ⟨⟨2024, 11, 3⟩, ⟨9, 30, 0⟩⟩ (by decide)).1
      (by decide) (by decide),
   (c6_fallback_latest fallBackEndEvent ⟨⟨2024, 11, 3⟩, ⟨8, 30, 0⟩⟩ ⟨⟨2024, 11, 3⟩, ⟨9, 30, 0⟩⟩
      ⟨⟨2024, 11, 3⟩, ⟨8, 30, 0⟩⟩ ⟨⟨2024, 11, 3⟩, ⟨9, 30, 0⟩⟩ (by decide)).2
      (by decide) (by decide)⟩

/-- On `loopingResp` the fetch loop never reaches the break, whatever the
fuel, the token and the accumulator. -/
theorem fetchLoop_loopingResp (fuel : Nat) :
    ∀ tok acc, fetchLoop loopingResp fuel tok acc = Option.none := by
  induction fuel with
  | zero => intro tok acc; rfl
  | succ n ih =>
      intro tok acc
      exact ih (some ("tok")) (acc ++ [galaRemote1.toGEvent])

/-- C3: the claim that the paged fetch terminates for every response
sequence, including one that repeats its page token after returning items,
is FALSE on the code: the loop of `find_matching_events` (and the identical
loop of `fetch_events`) breaks only when a response has no next-page token,
so the service `loopingResp`, which returns one item and the same token
`tok` on every request, makes it loop forever. -/
theorem c3_repeated_token_counterexample : ¬ fetchTerminates loopingResp := by
  intro ⟨fuel, h⟩
  rw [fetchLoop_loopingResp fuel Option.none []] at h
  simp at h

/-- C3 (amended): absence of a next-page token is the sole termination
signal: the loop stops after the first request exactly when the first
response carries no token (and then yields exactly that page's items),
while a first response that carries a token keeps the loop running past the
first request; a service that repeats a token forever is not detected and
loops forever. -/
theorem c3_pagination_amended (resp : Option String → EventsPage) :
    ((resp Option.none).next_page_token = Option.none →
      fetchLoop resp 1 Option.none [] = some ((resp Option.none).items.getD [])) ∧
    (∀ t, (resp Option.none).next_page_token = some t →
      fetchLoop resp 1 Option.none [] = Option.none) := by
  constructor
  · intro h
    unfold fetchLoop
    rw [h]
    simp
  · intro t h
    unfold fetchLoop
    rw [h]
    rfl

theorem c3_pagination_amended_witness :
    (onePageResp Option.none).next_page_token = Option.none ∧
    fetchLoop onePageResp 1 Option.none [] = some [galaRemote1.toGEvent] :=
  ⟨rfl, (c3_pagination_amended onePageResp).1 rfl⟩

/-- C4: the claim that mapping failures are row-scoped for every source is
FALSE on the code for the CSV source: `parse_csv` propagates the first
per-row failure with `?`, so a file whose first row has an unparseable
start date and whose second row is well formed yields an error and no
events at all, although the second row alone maps successfully. -/
theorem c4_csv_abort_counterexample :
    parse_csv [csvBadRecord, csvGoodRecord] =
      Except.error (MapErr.invalidTemporal ("start_date") ("garbage")) ∧
    (parse_record csvGoodRecord).isOk = true := by
  constructor
  · decide
  · decide

/-- C4 (amended): mapping failures are row-scoped for the Coda source: the
row loop of `fetch_events` keeps exactly the successfully mapped rows, in
order, and skips the failing ones.  For the CSV source they are not:
`parse_csv` aborts at the first failing row, discarding the whole batch. -/
theorem c4_row_scoped_amended :
    (∀ rows : List RowValues,
      codaCollectRows rows = rows.filterMap fun r => (parse_coda_row r).toOption) ∧
    (∀ (r : CsvRecord) (rs : List CsvRecord) (e : MapErr),
      parse_record r = Except.error e → parse_csv (r :: rs) = Except.error e) := by
  constructor
  · intro rows
    unfold codaCollectRows
    suffices h : ∀ (acc : List CalendarEvent),
        rows.foldl (fun acc row =>
          match parse_coda_row row with
          | Except.ok e => acc ++ [e]
          | Except.error _ => acc) acc =
        acc ++ rows.filterMap (fun r => (parse_coda_row r).toOption) by
      simpa using h []
    induction rows with
    | nil => intro acc; simp
    | cons r rs ih =>
        intro acc
        rcases hr : parse_coda_row r with e | ev <;>
          simp [List.foldl_cons, hr, ih, Except.toOption]
  · intro r rs e h
    unfold parse_csv
    rw [h]

theorem c4_row_scoped_amended_witness :
    parse_csv [csvBadRecord] =
      Except.error (MapErr.invalidTemporal ("start_date") ("garbage")) :=
  c4_row_scoped_amended.2 csvBadRecord []
    (MapErr.invalidTemporal ("start_date") ("garbage")) (by decide)

/-- C2: the claim that every RecordMapper output satisfies the all-day/timed
consistency invariant is FALSE on the code for the CSV mapper:
`parse_record` parses `start_time` and `end_time` independently and never
synthesizes a missing end time, so the row `csvMixedRecord` (a start time,
no end time) maps successfully to an event with `start_time` present and
`end_time` absent. -/
theorem c2_mixed_presence_counterexample :
    parse_record csvMixedRecord = Except.ok csvMixedEvent ∧
    csvMixedEvent.start_time.isSome = true ∧ csvMixedEvent.end_time.isSome = false := by
  refine ⟨by decide, by decide, by decide⟩

/-- C2 (amended): the Coda mapper keeps the invariant — every event
`parse_coda_row` produces has its end time derived from its start time, so
the two are present or absent together; the CSV mapper does not keep it. -/
theorem c2_time_pair_amended (values : RowValues) (ev : CalendarEvent)
    (h : parse_coda_row values = Except.ok ev) : ev.timesConsistent := by
  unfold parse_coda_row at h
  split at h
  · exact absurd h (by simp)
  · split at h
    · exact absurd h (by simp)
    · split at h
      · exact absurd h (by simp)
      · rename_i st heq
        injection h with h2
        subst h2
        unfold CalendarEvent.timesConsistent
        dsimp only
        rcases hst : st.2 with _ | t <;> simp [hst]

theorem c2_time_pair_amended_witness :
    parse_coda_row codaSampleRow = Except.ok codaSampleEvent ∧
    codaSampleEvent.timesConsistent :=
  ⟨by decide, c2_time_pair_amended codaSampleRow codaSampleEvent (by decide)⟩

/-- C10: every CanonicalEvent the Coda mapper produces is single-day:
`parse_coda_row` always writes `end_date := start_date`, whether the event
is all-day or timed, and even when the derived end time wraps past
midnight. -/
theorem c10_coda_single_day (values : RowValues) (ev : CalendarEvent)
    (h : parse_coda_row values = Except.ok ev) : ev.end_date = ev.start_date := by
  unfold parse_coda_row at h
  split at h
  · exact absurd h (by simp)
  · split at h
    · exact absurd h (by simp)
    · split at h
      · exact absurd h (by simp)
      · injection h with h2
        subst h2
        rfl

theorem c10_coda_single_day_witness :
    parse_coda_row codaLateRow = Except.ok codaLateEvent ∧
    codaLateEvent.end_date = codaLateEvent.start_date ∧
    codaLateEvent.start_time = some ⟨23, 0, 0⟩ ∧
    codaLateEvent.end_time = some ⟨1, 30, 0⟩ :=
  ⟨by decide, c10_coda_single_day codaLateRow codaLateEvent (by decide), by decide, by decide⟩

/-- One inner-loop step on a remote event that has an id, a title and an
all-day start date (the shape every fetched record of the spec has). -/
theorem matchStep_toGEvent (ce : CalendarEvent)
    (acc : List (CalendarEvent × FoundCalendarEvent)) (r : FoundCalendarEvent) :
    matchStep ce acc r.toGEvent =
      acc ++ (if strLower r.title = strLower ce.title ∧ r.date = ce.start_date
              then [(ce, r)] else []) := by
  unfold matchStep FoundCalendarEvent.toGEvent extract_event_date
  dsimp only [Option.getD]
  split
  · rfl
  · simp

/-- The inner loop over a list of such remote events appends one pair per
matching remote event, in fetch order. -/
theorem foldl_matchStep (ce : CalendarEvent) (rs : List FoundCalendarEvent)
    (acc : List (CalendarEvent × FoundCalendarEvent)) :
    (rs.map FoundCalendarEvent.toGEvent).foldl (matchStep ce) acc =
      acc ++ (rs.filter fun r =>
          decide (strLower r.title = strLower ce.title ∧ r.date = ce.start_date)).map
        (fun r => (ce, r)) := by
  induction rs generalizing acc with
  | nil => simp
  | cons r rs ih =>
      simp only [List.map_cons, List.foldl_cons, matchStep_toGEvent, List.filter_cons]
      by_cases hc : strLower r.title = strLower ce.title ∧ r.date = ce.start_date
      · simp [hc, ih]
      · simp [hc, ih]

/-- C7: for every local event list and every fetched remote list (each
remote record carrying its id, title and date), the matcher emits a pair
exactly when the lower-cased titles agree and the remote date equals the
local start date, one pair per matching remote event — so the local Gala on
2024-03-01 against two remote duplicates titled gala on that date yields
two pairs, not one. -/
theorem c7_matching_pairs (events : List CalendarEvent)
    (remotes : List FoundCalendarEvent) :
    matchEvents events (remotes.map FoundCalendarEvent.toGEvent) =
      specMatch events remotes ∧
    matchEvents [galaLocal] [galaRemote1.toGEvent, galaRemote2.toGEvent] =
      [(galaLocal, galaRemote1), (galaLocal, galaRemote2)] := by
  constructor
  · unfold matchEvents specMatch
    suffices h : ∀ (evs : List CalendarEvent) (acc : List (CalendarEvent × FoundCalendarEvent)),
        evs.foldl (fun acc ce => (remotes.map FoundCalendarEvent.toGEvent).foldl
            (matchStep ce) acc) acc =
          acc ++ evs.flatMap (fun ce =>
            (remotes.filter fun r =>
                decide (strLower r.title = strLower ce.title ∧ r.date = ce.start_date)).map
              fun r => (ce, r)) by
      simpa using h events []
    intro evs
    induction evs with
    | nil => intro acc; simp
    | cons ce evs ih =>
        intro acc
        rw [List.foldl_cons, ih, foldl_matchStep, List.flatMap_cons]
        simp [List.append_assoc]
  · decide

/-- `Ordering.then` is associative. -/
theorem othen_assoc (a b c : Ordering) : (a.then b).then c = a.then (b.then c) := by
  cases a <;> rfl

theorem intCmp_then_ne_gt (x y : Int) (o : Ordering) :
    (intCmp x y).then o ≠ Ordering.gt ↔ (x < y ∨ (x = y ∧ o ≠ Ordering.gt)) := by
  unfold intCmp
  by_cases h1 : x < y
  · simp [h1, Ordering.then]
  · by_cases h2 : y < x
    · have hne : x ≠ y := by omega
      simp [h1, h2, hne, Ordering.then]
    · have hxy : x = y := by omega
      simp [h1, h2, hxy, Ordering.then]

theorem natCmp_then_ne_gt (x y : Nat) (o : Ordering) :
    (natCmp x y).then o ≠ Ordering.gt ↔ (x < y ∨ (x = y ∧ o ≠ Ordering.gt)) := by
  unfold natCmp
  by_cases h1 : x < y
  · simp [h1, Ordering.then]
  · by_cases h2 : y < x
    · have hne : x ≠ y := by omega
      simp [h1, h2, hne, Ordering.then]
    · have hxy : x = y := by omega
      simp [h1, h2, hxy, Ordering.then]

/-- Tying an `eq` on the right leaves an `Ordering` unchanged. -/
theorem othen_eq (a : Ordering) : a.then Ordering.eq = a := by
  cases a <;> rfl

theorem optTimeCmp_ne_gt (a b : Option Time) :
    optTimeCmp a b ≠ Ordering.gt ↔ timeKey a ≤ timeKey b := by
  cases a with
  | none =>
      cases b with
      | none => simp [optTimeCmp, timeKey]
      | some y => simp [optTimeCmp, timeKey]
  | some x =>
      cases b with
      | none =>
          simp only [optTimeCmp, timeKey]
          constructor
          · intro h
            exact absurd rfl h
          · intro h
            exact absurd h (by omega)
      | some y =>
          simp only [optTimeCmp, timeKey]
          rw [← othen_eq (natCmp x.toSecs y.toSecs), natCmp_then_ne_gt]
          constructor
          · rintro (h | ⟨h, _⟩) <;> omega
          · intro h
            rcases Nat.lt_or_ge x.toSecs y.toSecs with h1 | h1
            · exact Or.inl h1
            · exact Or.inr ⟨by omega, by decide⟩

/-- The relation used for the embedded sort is exactly `precedes or ties`
for the comparator closure passed to `sort_by`. -/
theorem eventCmp_ne_gt_iff (a b : CalendarEvent) :
    eventCmp a b ≠ Ordering.gt ↔ eventLe a b := by
  unfold eventCmp dateCmp eventLe
  rw [othen_assoc, othen_assoc, intCmp_then_ne_gt, natCmp_then_ne_gt, natCmp_then_ne_gt,
    optTimeCmp_ne_gt]
  have hdate : ∀ d1 d2 : Date, d1 = d2 ↔ (d1.year = d2.year ∧ d1.month = d2.month ∧
      d1.day = d2.day) := by
    intro ⟨y1, m1, a1⟩ ⟨y2, m2, a2⟩
    simp [Date.mk.injEq]
  rw [dateLtP, hdate]
  tauto

theorem date_eq_of_coords (d1 d2 : Date) (h1 : d1.year = d2.year)
    (h2 : d1.month = d2.month) (h3 : d1.day = d2.day) : d1 = d2 := by
  cases d1
  cases d2
  simp_all

/-- Two events out of order under `eventLe` have different sort keys. -/
theorem key_ne_of_not_le (a b : CalendarEvent) (h : ¬ eventLe a b) :
    eventKey a ≠ eventKey b := by
  intro hk
  apply h
  simp only [eventKey, Prod.mk.injEq] at hk
  exact Or.inr ⟨date_eq_of_coords _ _ hk.1 hk.2.1 hk.2.2.1, le_of_eq hk.2.2.2⟩

theorem filter_key_orderedInsert (k : Int × Nat × Nat × Nat) (a : CalendarEvent)
    (l : List CalendarEvent) :
    (List.orderedInsert eventLe a l).filter (fun e => eventKey e == k) =
      if eventKey a == k then a :: l.filter (fun e => eventKey e == k)
      else l.filter (fun e => eventKey e == k) := by
  induction l with
  | nil => simp [List.orderedInsert, List.filter_cons]
  | cons b t ih =>
      unfold List.orderedInsert
      by_cases hle : eventLe a b
      · simp only [if_pos hle]
        by_cases hak : eventKey a == k <;> simp [List.filter_cons, hak]
      · simp only [if_neg hle]
        rw [List.filter_cons, List.filter_cons]
        by_cases hb : eventKey b == k
        · by_cases hak : eventKey a == k
          · exfalso
            rw [beq_iff_eq] at hb hak
            exact key_ne_of_not_le a b hle (hak.trans hb.symm)
          · simp [hb, hak, ih]
        · simp [hb, ih]

theorem filter_key_insertionSort (k : Int × Nat × Nat × Nat) (l : List CalendarEvent) :
    ((l.insertionSort eventLe).filter fun e => eventKey e == k) =
      l.filter fun e => eventKey e == k := by
  induction l with
  | nil => rfl
  | cons a t ih =>
      rw [List.insertionSort, filter_key_orderedInsert, List.filter_cons]
      by_cases hak : eventKey a == k <;> simp [hak, ih]

/-- The early-return chain of `filter_events` computes the spec predicate. -/
theorem keepEvent_iff (sd ed : Option Date) (po : Bool) (e : CalendarEvent) :
    keepEvent sd ed po e = true ↔ specKeep sd ed po e := by
  have tot : ∀ d1 d2 : Date, (dateLtP d2 d1 ∨ d2 = d1) ↔ ¬ dateLtP d1 d2 := by
    intro ⟨y1, m1, a1⟩ ⟨y2, m2, a2⟩
    simp only [dateLtP, Date.mk.injEq]
    omega
  have hif : ∀ c1 c2 c3 : Bool,
      ((if c1 then false else if c2 then false else if c3 then false else true) = true ↔
        (c1 = false ∧ c2 = false ∧ c3 = false)) := by decide
  have e1 : (sd.elim false fun s => decide (dateLtP e.start_date s)) = false ↔
      (∀ s, sd = some s → (dateLtP s e.start_date ∨ s = e.start_date)) := by
    rcases sd with _ | s
    · simp [Option.elim]
    · simp only [Option.elim, decide_eq_false_iff_not, tot, Option.some.injEq,
        forall_eq']
  have e2 : (ed.elim false fun d => decide (dateLtP d e.start_date)) = false ↔
      (∀ d, ed = some d → (dateLtP e.start_date d ∨ e.start_date = d)) := by
    rcases ed with _ | d
    · simp [Option.elim]
    · simp only [Option.elim, decide_eq_false_iff_not, tot, Option.some.injEq,
        forall_eq']
  have e3 : (po && !e.purchased) = false ↔ (po = true → e.purchased = true) := by
    cases po <;> cases hp : e.purchased <;> simp [hp]
  unfold keepEvent specKeep
  rw [hif, e1, e2, e3]

/-- C8: `filter_events` keeps an event iff (start bound absent OR start
date at or after it) AND (end bound absent OR start date at or before it)
AND (NOT purchased-only OR purchased), both bounds inclusive, and orders
the kept events by the `sort_by` comparator — ascending start date, ties by
start time with an absent time before any present time — as a permutation
of the kept events, sorted, and stably: events with any given sort key keep
their original relative order. -/
theorem c8_filter_order (events : List CalendarEvent) (sd ed : Option Date) (po : Bool) :
    (∀ e, keepEvent sd ed po e = true ↔ specKeep sd ed po e) ∧
    List.Perm (filter_events events sd ed po) (events.filter (keepEvent sd ed po)) ∧
    (∀ a b, eventCmp a b ≠ Ordering.gt ↔ eventLe a b) ∧
    List.Sorted eventLe (filter_events events sd ed po) ∧
    (∀ k, ((filter_events events sd ed po).filter fun e => eventKey e == k) =
      ((events.filter (keepEvent sd ed po)).filter fun e => eventKey e == k)) := by
  refine ⟨keepEvent_iff sd ed po, ?_, eventCmp_ne_gt_iff, ?_, ?_⟩
  · exact List.perm_insertionSort eventLe _
  · exact List.sorted_insertionSort eventLe _
  · intro k
    exact filter_key_insertionSort k _

/-- C9: an input whose trimmed form is rejected by every date+time family
and accepted by the date-only family parses to the first date-only match
with no time component (`(date, None)`), whatever the matching date-only
format; and when the month-first slash format is the first date-only match,
both `parse_coda_datetime` and the csv `parse_date` return its reading —
month-first is tried before day-first, so an ambiguous slash date takes the
month-first reading. -/
theorem c9_date_only_month_first (s : String) (d : Date)
    (hdt : codaDatetimeAttempts (trimChars s.toList) = Option.none) :
    (codaDateOnly (trimChars s.toList) = some d →
      parse_coda_datetime s = Except.ok (d, Option.none)) ∧
    (fDateISO (trimChars s.toList) = Option.none →
      fDateMDY (trimChars s.toList) = some d →
      parse_coda_datetime s = Except.ok (d, Option.none) ∧ parse_date s = some d) := by
  constructor
  · intro hdo
    unfold parse_coda_datetime
    rw [hdt, hdo]
  · intro hiso hmdy
    constructor
    · unfold parse_coda_datetime codaDateOnly
      rw [hdt, hiso, hmdy]
      simp
    · unfold parse_date
      rw [hiso, hmdy]
      simp

theorem c9_date_only_month_first_witness :
    parse_coda_datetime ("2024-02-15") = Except.ok (⟨2024, 2, 15⟩, Option.none) ∧
    parse_coda_datetime ("25/12/2024") = Except.ok (⟨2024, 12, 25⟩, Option.none) ∧
    fDateDMY (trimChars ("03/04/2024").toList) = some ⟨2024, 4, 3⟩ ∧
    parse_coda_datetime ("03/04/2024") = Except.ok (⟨2024, 3, 4⟩, Option.none) ∧
    parse_date ("03/04/2024") = some ⟨2024, 3, 4⟩ := by
  refine ⟨?_, ?_, by decide, ?_, ?_⟩
  · exact (c9_date_only_month_first ("2024-02-15") ⟨2024, 2, 15⟩ (by decide)).1 (by decide)
  · exact (c9_date_only_month_first ("25/12/2024") ⟨2024, 12, 25⟩ (by decide)).1 (by decide)
  · exact ((c9_date_only_month_first ("03/04/2024") ⟨2024, 3, 4⟩ (by decide)).2
      (by decide) (by decide)).1
  · exact ((c9_date_only_month_first ("03/04/2024") ⟨2024, 3, 4⟩ (by decide)).2
      (by decide) (by decide)).2

end CalendarSync
